import Mathlib

/-!
Shallow embedding of `external-dns.go` (rancher external-dns reconciler).

The Go program keeps a DNS provider's record set in sync with the set of
running service instances reported by a metadata source.  We embed the data
model (`providers.DnsRecord`, Go's `map[string]DnsRecord`) and every function
of the source file as computable Lean definitions, threading the external
collaborators (metadata handler, DNS provider) as explicit records of
functions, a Go map as an association list with unique keys, and the side
effects performed against the provider as an explicit trace.

Deviations from Go that the embedding makes explicit:
* Go map iteration order is unspecified; here the association-list order is a
  representative.  All theorems below are membership statements, insensitive
  to that order.
* `fmt.Errorf("...: %v", err)` is modelled as string concatenation of the
  format's literal text with a rendering of the interpolated values; the
  rendering of a record (`%v` of a struct) is abstracted by `formatRecord`.
* The goroutine structure of `updateRecords` is modelled by its sequential
  observable behaviour: the consumer goroutine performs provider calls in
  order until its first error, and the error value it returns is discarded
  by the enclosing function, which returns `nil` unconditionally (as the Go
  code does at line 91).
-/

namespace ExternalDns

/-- Go struct `providers.DnsRecord`: the fields are `DomainName`,
`Records` (the value list), `RecordType` and `TTL`. -/
structure DnsRecord where
  DomainName : String
  Records : List String
  RecordType : String
  TTL : Nat
deriving DecidableEq, Repr, Inhabited

/-- Go `strings.ToLower` (ASCII case folding suffices for every input used
below). -/
def goToLower (s : String) : String := String.mk (s.data.map Char.toLower)

/-- Go `strings.HasSuffix`. -/
def goHasSuffix (s sfx : String) : Bool := List.isSuffixOf sfx.data s.data

/-- Go `strings.Join`. -/
def goJoin (elems : List String) (sep : String) : String :=
  match elems with
  | [] => ""
  | [x] => x
  | x :: xs => x ++ sep ++ goJoin xs sep

deriving instance DecidableEq for Except

/-- Go's `map[string]providers.DnsRecord`, embedded as an association list.
Keys are unique in every map the program builds; theorems that need this
carry a `keysNodup` hypothesis. -/
abbrev RecordSet := List (String × DnsRecord)

/-- Reading a Go map: `m[k]` together with the `ok` flag. -/
def mapLookup (rs : RecordSet) (k : String) : Option DnsRecord :=
  match rs with
  | [] => none
  | kv :: rest => if kv.1 = k then some kv.2 else mapLookup rest k

/-- Writing a Go map: `m[k] = v` (replace the entry for `k` if present,
otherwise add one). -/
def mapInsert (rs : RecordSet) (k : String) (v : DnsRecord) : RecordSet :=
  match rs with
  | [] => [(k, v)]
  | kv :: rest => if kv.1 = k then (k, v) :: rest else kv :: mapInsert rest k v

/-- The keys of the map are pairwise distinct (every Go map satisfies this). -/
def keysNodup (rs : RecordSet) : Prop := (rs.map Prod.fst).Nodup

/-- Every entry's key equals the `DomainName` of the record stored under it. -/
def wellKeyed (rs : RecordSet) : Prop := ∀ kv ∈ rs, kv.1 = kv.2.DomainName

instance (rs : RecordSet) : Decidable (keysNodup rs) :=
  inferInstanceAs (Decidable (rs.map Prod.fst).Nodup)

instance (rs : RecordSet) : Decidable (wellKeyed rs) :=
  List.decidableBAll _ rs

@[simp] theorem mapLookup_nil (k : String) : mapLookup [] k = none := rfl

@[simp] theorem mapLookup_cons (kv : String × DnsRecord) (rest : RecordSet) (k : String) :
    mapLookup (kv :: rest) k = if kv.1 = k then some kv.2 else mapLookup rest k := rfl

theorem mapLookup_isSome_iff {rs : RecordSet} {k : String} :
    (mapLookup rs k).isSome ↔ ∃ v, (k, v) ∈ rs := by
  induction rs with
  | nil => simp [mapLookup]
  | cons kv rest ih =>
    by_cases h : kv.1 = k
    · subst h
      rw [mapLookup_cons, if_pos rfl]
      simp only [Option.isSome_some, true_iff]
      exact ⟨kv.2, List.mem_cons_self _ _⟩
    · rw [mapLookup_cons, if_neg h]
      simp only [List.mem_cons, ih]
      constructor
      · rintro ⟨v, hv⟩; exact ⟨v, Or.inr hv⟩
      · rintro ⟨v, hv | hv⟩
        · cases hv; exact absurd rfl h
        · exact ⟨v, hv⟩

theorem mapLookup_eq_none_iff {rs : RecordSet} {k : String} :
    mapLookup rs k = none ↔ ∀ v, (k, v) ∉ rs := by
  rw [← Option.not_isSome_iff_eq_none, mapLookup_isSome_iff]
  push_neg
  rfl

theorem mapLookup_mem {rs : RecordSet} {k : String} {v : DnsRecord}
    (h : mapLookup rs k = some v) : (k, v) ∈ rs := by
  induction rs with
  | nil => simp [mapLookup] at h
  | cons kv rest ih =>
    by_cases hk : kv.1 = k
    · subst hk
      rw [mapLookup_cons, if_pos rfl] at h
      cases h
      exact List.mem_cons_self _ _
    · rw [mapLookup_cons, if_neg hk] at h
      exact List.mem_cons_of_mem _ (ih h)

theorem mem_mapLookup_of_nodup {rs : RecordSet} {k : String} {v : DnsRecord}
    (hnd : keysNodup rs) (h : (k, v) ∈ rs) : mapLookup rs k = some v := by
  induction rs with
  | nil => cases h
  | cons kv rest ih =>
    rcases List.mem_cons.mp h with h1 | h1
    · cases h1
      simp [mapLookup]
    · have hk : kv.1 ≠ k := by
        intro he
        have : kv.1 ∈ rest.map Prod.fst := by
          rw [he]
          exact List.mem_map.mpr ⟨(k, v), h1, rfl⟩
        exact (List.nodup_cons.mp hnd).1 this
      rw [mapLookup_cons, if_neg hk]
      exact ih (List.nodup_cons.mp hnd).2 h1

theorem mapLookup_mapInsert (rs : RecordSet) (k : String) (v : DnsRecord) (q : String) :
    mapLookup (mapInsert rs k v) q = if k = q then some v else mapLookup rs q := by
  induction rs with
  | nil =>
    by_cases h : k = q <;> simp [mapInsert, mapLookup, h]
  | cons kv rest ih =>
    by_cases h1 : kv.1 = k
    · rw [show mapInsert (kv :: rest) k v = (k, v) :: rest by
        rw [mapInsert]; rw [if_pos h1]]
      by_cases h2 : k = q
      · rw [mapLookup_cons, if_pos h2, if_pos h2]
      · rw [mapLookup_cons, if_neg h2, if_neg h2, mapLookup_cons]
        rw [if_neg (h1 ▸ h2 : kv.1 ≠ q)]
    · rw [show mapInsert (kv :: rest) k v = kv :: mapInsert rest k v by
        rw [mapInsert]; rw [if_neg h1]]
      by_cases h2 : kv.1 = q
      · have hkq : ¬ k = q := fun he => h1 (h2.trans he.symm)
        rw [mapLookup_cons, if_pos h2, if_neg hkq, mapLookup_cons, if_pos h2]
      · rw [mapLookup_cons, if_neg h2, ih, mapLookup_cons, if_neg h2]

theorem mem_mapInsert {rs : RecordSet} {k : String} {v : DnsRecord} {kv : String × DnsRecord}
    (h : kv ∈ mapInsert rs k v) : kv = (k, v) ∨ kv ∈ rs := by
  induction rs with
  | nil => simpa [mapInsert] using h
  | cons hd rest ih =>
    by_cases h1 : hd.1 = k
    · rw [show mapInsert (hd :: rest) k v = (k, v) :: rest by
        rw [mapInsert]; rw [if_pos h1]] at h
      rcases List.mem_cons.mp h with h2 | h2
      · exact Or.inl h2
      · exact Or.inr (List.mem_cons_of_mem _ h2)
    · rw [show mapInsert (hd :: rest) k v = hd :: mapInsert rest k v by
        rw [mapInsert]; rw [if_neg h1]] at h
      rcases List.mem_cons.mp h with h2 | h2
      · exact Or.inr (h2 ▸ List.mem_cons_self _ _)
      · rcases ih h2 with h3 | h3
        · exact Or.inl h3
        · exact Or.inr (List.mem_cons_of_mem _ h3)

theorem keys_mapInsert (rs : RecordSet) (k : String) (v : DnsRecord) (q : String) :
    q ∈ (mapInsert rs k v).map Prod.fst ↔ q = k ∨ q ∈ rs.map Prod.fst := by
  induction rs with
  | nil => simp [mapInsert]
  | cons hd rest ih =>
    by_cases h1 : hd.1 = k
    · rw [show mapInsert (hd :: rest) k v = (k, v) :: rest by
        rw [mapInsert]; rw [if_pos h1]]
      simp only [List.map_cons, List.mem_cons, h1]
      tauto
    · rw [show mapInsert (hd :: rest) k v = hd :: mapInsert rest k v by
        rw [mapInsert]; rw [if_neg h1]]
      simp only [List.map_cons, List.mem_cons, ih]
      tauto

theorem keysNodup_mapInsert {rs : RecordSet} (k : String) (v : DnsRecord)
    (hnd : keysNodup rs) : keysNodup (mapInsert rs k v) := by
  induction rs with
  | nil => simp [mapInsert, keysNodup]
  | cons hd rest ih =>
    have hnd' := List.nodup_cons.mp hnd
    by_cases h1 : hd.1 = k
    · rw [keysNodup, show mapInsert (hd :: rest) k v = (k, v) :: rest by
        rw [mapInsert]; rw [if_pos h1]]
      exact List.nodup_cons.mpr ⟨h1 ▸ hnd'.1, hnd'.2⟩
    · rw [keysNodup, show mapInsert (hd :: rest) k v = hd :: mapInsert rest k v by
        rw [mapInsert]; rw [if_neg h1]]
      refine List.nodup_cons.mpr ⟨?_, ih hnd'.2⟩
      intro hmem
      rcases (keys_mapInsert rest k v hd.1).mp hmem with h2 | h2
      · exact h1 h2
      · exact hnd'.1 h2

theorem wellKeyed_mapInsert {rs : RecordSet} {k : String} {v : DnsRecord}
    (hk : k = v.DomainName) (hwk : wellKeyed rs) : wellKeyed (mapInsert rs k v) := by
  intro kv hkv
  rcases mem_mapInsert hkv with h | h
  · rw [h]
    exact hk
  · exact hwk kv h

/-! ## The diff step

`updateExistingRecords` (Go lines 94–126) compares the value lists of the two
records for a shared key by loading each into a `map[string]struct{}` and
checking the sizes and mutual containment.  `metadataR`/`providerR` below are
those Go sets, embedded as duplicate-free lists (`List.dedup`). -/

/-- The comparison of Go lines 98–121: `true` iff the two value lists differ
as sets (size mismatch, or an element of one absent from the other). -/
def valuesDiffer (metaVals provVals : List String) : Bool :=
  let metadataR := metaVals.dedup
  let providerR := provVals.dedup
  if metadataR.length ≠ providerR.length then
    true
  else
    (metadataR.any fun s => ! providerR.contains s) ||
    (providerR.any fun s => ! metadataR.contains s)

/-- Go lines 41–45 (`addMissingRecords`): the `toAdd` list — records of
`metadataRecs` whose key is absent from `providerRecs`. -/
def toAddList (metadataRecs providerRecs : RecordSet) : List DnsRecord :=
  (metadataRecs.filter fun kv => ¬ (mapLookup providerRecs kv.1).isSome).map Prod.snd

/-- Go lines 140–144 (`removeExtraRecords`): the `toRemove` list — records of
`providerRecs` whose key is absent from `metadataRecs`. -/
def toRemoveList (metadataRecs providerRecs : RecordSet) : List DnsRecord :=
  (providerRecs.filter fun kv => ¬ (mapLookup metadataRecs kv.1).isSome).map Prod.snd

/-- Go lines 96–126 (`updateExistingRecords`): the `toUpdate` list — records
of `metadataRecs` whose key is also in `providerRecs` and whose value list
differs, as a set, from the provider record's. -/
def toUpdateList (metadataRecs providerRecs : RecordSet) : List DnsRecord :=
  (metadataRecs.filter fun kv =>
    match mapLookup providerRecs kv.1 with
    | some provRec => valuesDiffer kv.2.Records provRec.Records
    | none => false).map Prod.snd

theorem valuesDiffer_eq_false_iff (a b : List String) :
    valuesDiffer a b = false ↔ (∀ s, s ∈ a ↔ s ∈ b) := by
  unfold valuesDiffer
  by_cases hlen : a.dedup.length = b.dedup.length
  · rw [if_neg (by simpa using hlen)]
    rw [Bool.or_eq_false_iff, List.any_eq_false, List.any_eq_false]
    constructor
    · rintro ⟨h1, h2⟩ s
      constructor
      · intro hs
        have h3 := h1 s (List.mem_dedup.mpr hs)
        simpa using h3
      · intro hs
        have h3 := h2 s (List.mem_dedup.mpr hs)
        simpa using h3
    · intro h
      refine ⟨fun s hs => ?_, fun s hs => ?_⟩
      · simpa using (h s).mp (List.mem_dedup.mp hs)
      · simpa using (h s).mpr (List.mem_dedup.mp hs)
  · rw [if_pos (by simpa using hlen)]
    constructor
    · intro h
      exact Bool.noConfusion h
    · intro h
      have hperm : List.Perm a.dedup b.dedup := by
        rw [List.perm_ext_iff_of_nodup (List.nodup_dedup a) (List.nodup_dedup b)]
        intro s
        rw [List.mem_dedup, List.mem_dedup]
        exact h s
      exact absurd hperm.length_eq hlen

theorem valuesDiffer_self (a : List String) : valuesDiffer a a = false :=
  (valuesDiffer_eq_false_iff a a).mpr fun _ => Iff.rfl

theorem mem_toAddList {metadataRecs providerRecs : RecordSet} {r : DnsRecord}
    (hwk : wellKeyed metadataRecs) :
    r ∈ toAddList metadataRecs providerRecs ↔
      (r.DomainName, r) ∈ metadataRecs ∧ mapLookup providerRecs r.DomainName = none := by
  unfold toAddList
  rw [List.mem_map]
  constructor
  · rintro ⟨kv, hkv, rfl⟩
    rcases List.mem_filter.mp hkv with ⟨hmem, hpred⟩
    have hkey := hwk kv hmem
    have hnone : mapLookup providerRecs kv.1 = none := by
      rcases h : mapLookup providerRecs kv.1 with _ | v
      · rfl
      · rw [h] at hpred; simp at hpred
    constructor
    · have : kv = (kv.2.DomainName, kv.2) := Prod.ext hkey rfl
      rw [← this]; exact hmem
    · rw [← hkey]; exact hnone
  · rintro ⟨hmem, hnone⟩
    refine ⟨(r.DomainName, r), List.mem_filter.mpr ⟨hmem, ?_⟩, rfl⟩
    simp [hnone]

theorem mem_toRemoveList {metadataRecs providerRecs : RecordSet} {r : DnsRecord}
    (hwk : wellKeyed providerRecs) :
    r ∈ toRemoveList metadataRecs providerRecs ↔
      (r.DomainName, r) ∈ providerRecs ∧ mapLookup metadataRecs r.DomainName = none := by
  unfold toRemoveList
  rw [List.mem_map]
  constructor
  · rintro ⟨kv, hkv, rfl⟩
    rcases List.mem_filter.mp hkv with ⟨hmem, hpred⟩
    have hkey := hwk kv hmem
    have hnone : mapLookup metadataRecs kv.1 = none := by
      rcases h : mapLookup metadataRecs kv.1 with _ | v
      · rfl
      · rw [h] at hpred; simp at hpred
    constructor
    · have : kv = (kv.2.DomainName, kv.2) := Prod.ext hkey rfl
      rw [← this]; exact hmem
    · rw [← hkey]; exact hnone
  · rintro ⟨hmem, hnone⟩
    refine ⟨(r.DomainName, r), List.mem_filter.mpr ⟨hmem, ?_⟩, rfl⟩
    simp [hnone]

theorem mem_toUpdateList {metadataRecs providerRecs : RecordSet} {r : DnsRecord}
    (hwk : wellKeyed metadataRecs) :
    r ∈ toUpdateList metadataRecs providerRecs ↔
      (r.DomainName, r) ∈ metadataRecs ∧
        ∃ provRec, mapLookup providerRecs r.DomainName = some provRec ∧
          valuesDiffer r.Records provRec.Records = true := by
  unfold toUpdateList
  rw [List.mem_map]
  constructor
  · rintro ⟨kv, hkv, rfl⟩
    rcases List.mem_filter.mp hkv with ⟨hmem, hpred⟩
    have hkey := hwk kv hmem
    constructor
    · have : kv = (kv.2.DomainName, kv.2) := Prod.ext hkey rfl
      rw [← this]; exact hmem
    · rcases h : mapLookup providerRecs kv.1 with _ | v
      · rw [h] at hpred; simp at hpred
      · rw [h] at hpred
        simp only at hpred
        exact ⟨v, by rw [← hkey]; exact h, hpred⟩
  · rintro ⟨hmem, provRec, hlook, hdiff⟩
    refine ⟨(r.DomainName, r), List.mem_filter.mpr ⟨hmem, ?_⟩, rfl⟩
    simp only [hlook, hdiff]

/-! ## External collaborators and the apply step -/

/-- The Go `Op` values `Add`, `Remove`, `Update` (passed by pointer in the
source; the pointee is what matters). -/
inductive Op
  | Add
  | Remove
  | Update
deriving DecidableEq, Repr

/-- The DNS provider collaborator (the package-level `provider` of the Go
program): the four calls the source makes, each returning data or an error
string.  A concrete `Provider` value plays the role of one reconciliation
pass's observable provider behaviour. -/
structure Provider where
  GetRecords : Except String (List DnsRecord)
  AddRecord : DnsRecord → Except String Unit
  RemoveRecord : DnsRecord → Except String Unit
  UpdateRecord : DnsRecord → Except String Unit

/-- One mutation call issued to the provider during a pass. -/
inductive Effect
  | add (r : DnsRecord)
  | remove (r : DnsRecord)
  | update (r : DnsRecord)
deriving DecidableEq, Repr

/-- Abstraction of Go fmt's `%v` rendering of a `DnsRecord`; no property
below depends on the exact text. -/
def formatRecord (r : DnsRecord) : String :=
  r.DomainName ++ " [" ++ goJoin r.Records " " ++ "] "
    ++ r.RecordType ++ " " ++ toString r.TTL

/-- The provider call the consumer goroutine makes for one received record
(Go lines 69–86), with its error wrapped as by `fmt.Errorf`. -/
def consumeValue (p : Provider) (op : Op) (value : DnsRecord) : Except String Unit :=
  match op with
  | .Add =>
    match p.AddRecord value with
    | .error err => .error ("Failed to add DNS record " ++ formatRecord value ++ ": " ++ err)
    | .ok _ => .ok ()
  | .Remove =>
    match p.RemoveRecord value with
    | .error err => .error ("Failed to remove DNS record " ++ formatRecord value ++ ": " ++ err)
    | .ok _ => .ok ()
  | .Update =>
    match p.UpdateRecord value with
    | .error err => .error ("Failed to update DNS record " ++ formatRecord value ++ ": " ++ err)
    | .ok _ => .ok ()

/-- The trace entry of the provider call for one record under `op`. -/
def effectOf (op : Op) (value : DnsRecord) : Effect :=
  match op with
  | .Add => .add value
  | .Remove => .remove value
  | .Update => .update value

/-- The consumer goroutine of `updateRecords` (Go lines 67–89): receives the
records in dispatch order and performs one provider call per record; after
the first failing call it returns the wrapped error and performs no further
call.  The second component is the trace of calls it performed, the failing
call included. -/
def consumerLoop (p : Provider) (op : Op) (vs : List DnsRecord) :
    Except String Unit × List Effect :=
  match vs with
  | [] => (.ok (), [])
  | v :: rest =>
    match consumeValue p op v with
    | .error e => (.error e, [effectOf op v])
    | .ok _ =>
      let next := consumerLoop p op rest
      (next.1, effectOf op v :: next.2)

/-- Go `updateRecords` (lines 55–92): dispatches every record to the consumer
goroutine and waits for the dispatchers; the consumer's return value is never
observed (the `go func() error` result is discarded) and the function itself
returns `nil` unconditionally (line 91). -/
def updateRecords (p : Provider) (toChange : List DnsRecord) (op : Op) :
    Except String Unit × List Effect :=
  let consumed := consumerLoop p op toChange
  (Except.ok (), consumed.2)

/-- Go `addMissingRecords` (lines 39–53). -/
def addMissingRecords (p : Provider) (metadataRecs providerRecs : RecordSet) :
    Except String Unit × List Effect :=
  let toAdd := toAddList metadataRecs providerRecs
  if toAdd.length = 0 then (.ok (), [])
  else updateRecords p toAdd Op.Add

/-- Go `removeExtraRecords` (lines 138–153). -/
def removeExtraRecords (p : Provider) (metadataRecs providerRecs : RecordSet) :
    Except String Unit × List Effect :=
  let toRemove := toRemoveList metadataRecs providerRecs
  if toRemove.length = 0 then (.ok (), [])
  else updateRecords p toRemove Op.Remove

/-- Go `updateExistingRecords` (lines 94–136). -/
def updateExistingRecords (p : Provider) (metadataRecs providerRecs : RecordSet) :
    Except String Unit × List Effect :=
  let toUpdate := toUpdateList metadataRecs providerRecs
  if toUpdate.length = 0 then (.ok (), [])
  else updateRecords p toUpdate Op.Update

/-! ## State readers and the orchestrator -/

/-- A discovered service instance, as the `go-rancher-metadata` collaborator
reports it (the fields the source reads). -/
structure Container where
  Name : String
  ServiceName : String
  StackName : String
  HostUUID : String
deriving DecidableEq, Repr

/-- A host, as the metadata collaborator reports it (only `AgentIP` is
read). -/
structure Host where
  AgentIP : String
deriving DecidableEq, Repr

/-- The `metadata.Handler` collaborator: the two calls the source makes. -/
structure Handler where
  GetContainers : Except String (List Container)
  GetHost : String → Except String Host

/-- Go `getProviderDnsRecords` (lines 155–169), with the package-level
configuration `EnvironmentName` and `providers.RootDomainName` passed
explicitly.  Only the suffix is lower-cased (line 162); the record's own
domain name is compared as-is by `strings.HasSuffix` (line 164). -/
def getProviderDnsRecords (p : Provider) (EnvironmentName RootDomainName : String) :
    Except String RecordSet :=
  match p.GetRecords with
  | .error err => .error err
  | .ok allRecords =>
    let suffix := goToLower (goJoin [EnvironmentName, RootDomainName] ".")
    .ok (allRecords.foldl
      (fun ourRecords value =>
        if goHasSuffix value.DomainName suffix then
          mapInsert ourRecords value.DomainName value
        else
          ourRecords)
      [])

/-- Go `addToDnsEntries` (lines 222–232), exactly as written: when an entry
for the domain name ALREADY exists (`ok` at line 224), `records` is set to
the new entry's values alone (line 225); when none exists, `records` starts
from the zero-value record's empty list (the map read at line 227 misses)
and the new values are appended.  The written entry always carries type
`"A"` and TTL `300` (line 230).  (The unused `m metadata.Handler` parameter
of the Go function is dropped.) -/
def addToDnsEntries (dnsEntry : DnsRecord) (dnsEntries : RecordSet) : RecordSet :=
  let records :=
    if (mapLookup dnsEntries dnsEntry.DomainName).isSome then
      dnsEntry.Records
    else
      (match mapLookup dnsEntries dnsEntry.DomainName with
        | some r => r.Records
        | none => []) ++ dnsEntry.Records
  let written : DnsRecord := ⟨dnsEntry.DomainName, records, "A", 300⟩
  mapInsert dnsEntries written.DomainName written

/-- The loop body of `getContainersDnsRecords` (Go lines 186–217) for one
container: the skip tests in source order (empty service name; the
service/stack filter when `serviceName` is non-empty; empty host UUID; a
failing host lookup), then the record construction of lines 210–216. -/
def containerStep (m : Handler) (serviceName stackName EnvironmentName RootDomainName : String)
    (dnsEntries : RecordSet) (container : Container) : RecordSet :=
  if container.ServiceName.length = 0 then
    dnsEntries
  else if serviceName.length ≠ 0 ∧
      (serviceName ≠ container.ServiceName ∨ stackName ≠ container.StackName) then
    dnsEntries
  else if container.HostUUID.length = 0 then
    dnsEntries
  else
    match m.GetHost container.HostUUID with
    | .error _ => dnsEntries
    | .ok host =>
      let ip := host.AgentIP
      let domainName := goToLower (goJoin
        [container.ServiceName, container.StackName, EnvironmentName, RootDomainName] ".")
      addToDnsEntries ⟨domainName, [ip], "A", 300⟩ dnsEntries

/-- Go `getContainersDnsRecords` (lines 180–220): a failing `GetContainers`
is the only error; otherwise the containers are folded through
`containerStep`. -/
def getContainersDnsRecords (m : Handler) (dnsEntries : RecordSet)
    (serviceName stackName EnvironmentName RootDomainName : String) :
    Except String RecordSet :=
  match m.GetContainers with
  | .error err => .error err
  | .ok containers =>
    .ok (containers.foldl
      (containerStep m serviceName stackName EnvironmentName RootDomainName) dnsEntries)

/-- Go `getMetadataDnsRecords` (lines 171–178): starts from an empty map and
delegates with empty service/stack filters. -/
def getMetadataDnsRecords (m : Handler) (EnvironmentName RootDomainName : String) :
    Except String RecordSet :=
  getContainersDnsRecords m [] "" "" EnvironmentName RootDomainName

/-- Go `UpdateDnsRecords` (lines 12–37): read desired state, read provider
state (each failure wrapped and fatal), then the three apply phases in
source order, each phase's error wrapped with the phase text of lines
26/30/34.  The second component is the trace of provider mutations
performed. -/
def UpdateDnsRecords (p : Provider) (m : Handler) (EnvironmentName RootDomainName : String) :
    Except String Unit × List Effect :=
  match getMetadataDnsRecords m EnvironmentName RootDomainName with
  | .error err => (.error ("Error reading external dns entries: " ++ err), [])
  | .ok metadataRecs =>
    match getProviderDnsRecords p EnvironmentName RootDomainName with
    | .error err => (.error ("Provider error reading dns entries: " ++ err), [])
    | .ok providerRecs =>
      let addPhase := addMissingRecords p metadataRecs providerRecs
      match addPhase.1 with
      | .error err => (.error ("Failed to add missing records: " ++ err), addPhase.2)
      | .ok _ =>
        let removePhase := removeExtraRecords p metadataRecs providerRecs
        match removePhase.1 with
        | .error err =>
          (.error ("Failed to remove extra records: " ++ err), addPhase.2 ++ removePhase.2)
        | .ok _ =>
          let updatePhase := updateExistingRecords p metadataRecs providerRecs
          match updatePhase.1 with
          | .error err =>
            (.error ("Failed to update existing records records: " ++ err),
              addPhase.2 ++ removePhase.2 ++ updatePhase.2)
          | .ok _ => (.ok (), addPhase.2 ++ removePhase.2 ++ updatePhase.2)

/-! ## Theorems about the diff step -/

/-- C7: running the diff step with a desired `RecordSet` `S` against a
current state equal to `S` yields three empty operation lists: `toAdd`,
`toRemove` and `toUpdate` are all empty. -/
theorem diff_idempotent (S : RecordSet) (hnd : keysNodup S) :
    toAddList S S = [] ∧ toRemoveList S S = [] ∧ toUpdateList S S = [] := by
  have hsome : ∀ kv ∈ S, (mapLookup S kv.1).isSome := fun kv hkv =>
    mapLookup_isSome_iff.mpr ⟨kv.2, by simpa using hkv⟩
  refine ⟨?_, ?_, ?_⟩
  · unfold toAddList
    rw [List.filter_eq_nil_iff.mpr, List.map_nil]
    intro kv hkv
    simp [hsome kv hkv]
  · unfold toRemoveList
    rw [List.filter_eq_nil_iff.mpr, List.map_nil]
    intro kv hkv
    simp [hsome kv hkv]
  · unfold toUpdateList
    rw [List.filter_eq_nil_iff.mpr, List.map_nil]
    intro kv hkv
    have hlook : mapLookup S kv.1 = some kv.2 :=
      mem_mapLookup_of_nodup hnd (by simpa using hkv)
    simp [hlook, valuesDiffer_self]

def recWebDesired : DnsRecord := ⟨"web.stack.env.example.com", ["10.0.0.1"], "A", 300⟩

def recWebCurrent : DnsRecord := ⟨"web.stack.env.example.com", ["10.0.0.2"], "A", 300⟩

def recOld : DnsRecord := ⟨"old.stack.env.example.com", ["10.0.0.9"], "A", 300⟩

def desiredScenario : RecordSet := [("web.stack.env.example.com", recWebDesired)]

def currentScenario : RecordSet :=
  [("web.stack.env.example.com", recWebCurrent), ("old.stack.env.example.com", recOld)]

/-- Witness for C7 at a concrete record set. -/
theorem diff_idempotent_witness :
    keysNodup currentScenario ∧
      (toAddList currentScenario currentScenario = [] ∧
        toRemoveList currentScenario currentScenario = [] ∧
        toUpdateList currentScenario currentScenario = []) :=
  ⟨by decide, diff_idempotent currentScenario (by decide)⟩

/-- C3: for every pair of desired and current `RecordSet`s, `toAdd` holds
exactly the desired records whose domain name is absent from current,
`toRemove` exactly the current records whose domain name is absent from
desired, and `toUpdate` exactly the desired records whose domain name is in
both but whose value list, compared as a set (order-independent, duplicates
collapsed), differs from the current record's; no other field (TTL, record
type) enters the comparison. -/
theorem diff_characterization (desired current : RecordSet)
    (hwkd : wellKeyed desired) (hwkc : wellKeyed current) (hndc : keysNodup current) :
    (∀ r, r ∈ toAddList desired current ↔
      (r.DomainName, r) ∈ desired ∧ ∀ v, (r.DomainName, v) ∉ current) ∧
    (∀ r, r ∈ toRemoveList desired current ↔
      (r.DomainName, r) ∈ current ∧ ∀ v, (r.DomainName, v) ∉ desired) ∧
    (∀ r, r ∈ toUpdateList desired current ↔
      (r.DomainName, r) ∈ desired ∧
        ∃ c, (r.DomainName, c) ∈ current ∧ ¬ (∀ s, s ∈ r.Records ↔ s ∈ c.Records)) := by
  refine ⟨fun r => ?_, fun r => ?_, fun r => ?_⟩
  · rw [mem_toAddList hwkd, mapLookup_eq_none_iff]
  · rw [mem_toRemoveList hwkc, mapLookup_eq_none_iff]
  · rw [mem_toUpdateList hwkd]
    constructor
    · rintro ⟨hmem, c, hlook, hdiff⟩
      refine ⟨hmem, c, mapLookup_mem hlook, ?_⟩
      intro hiff
      rw [(valuesDiffer_eq_false_iff _ _).mpr hiff] at hdiff
      exact Bool.noConfusion hdiff
    · rintro ⟨hmem, c, hc, hniff⟩
      refine ⟨hmem, c, mem_mapLookup_of_nodup hndc hc, ?_⟩
      rcases h : valuesDiffer r.Records c.Records with _ | _
      · exact absurd ((valuesDiffer_eq_false_iff _ _).mp h) hniff
      · rfl

/-- Witness for C3 at the spec's concrete scenario (desired: `web` with value
`10.0.0.1`; current: `web` with value `10.0.0.2` and `old`). -/
theorem diff_characterization_witness :
    wellKeyed desiredScenario ∧ wellKeyed currentScenario ∧ keysNodup currentScenario ∧
    ((∀ r, r ∈ toAddList desiredScenario currentScenario ↔
      (r.DomainName, r) ∈ desiredScenario ∧ ∀ v, (r.DomainName, v) ∉ currentScenario) ∧
    (∀ r, r ∈ toRemoveList desiredScenario currentScenario ↔
      (r.DomainName, r) ∈ currentScenario ∧ ∀ v, (r.DomainName, v) ∉ desiredScenario) ∧
    (∀ r, r ∈ toUpdateList desiredScenario currentScenario ↔
      (r.DomainName, r) ∈ desiredScenario ∧
        ∃ c, (r.DomainName, c) ∈ currentScenario ∧
          ¬ (∀ s, s ∈ r.Records ↔ s ∈ c.Records))) :=
  ⟨by decide, by decide, by decide,
    diff_characterization desiredScenario currentScenario (by decide) (by decide) (by decide)⟩

theorem name_mem_toAddList {metadataRecs providerRecs : RecordSet} {d : String}
    (hwk : wellKeyed metadataRecs) :
    d ∈ (toAddList metadataRecs providerRecs).map DnsRecord.DomainName ↔
      (mapLookup metadataRecs d).isSome ∧ mapLookup providerRecs d = none := by
  rw [List.mem_map]
  constructor
  · rintro ⟨r, hr, rfl⟩
    rcases (mem_toAddList hwk).mp hr with ⟨hmem, hnone⟩
    exact ⟨mapLookup_isSome_iff.mpr ⟨r, hmem⟩, hnone⟩
  · rintro ⟨hsome, hnone⟩
    rcases Option.isSome_iff_exists.mp hsome with ⟨v, hv⟩
    have hmem := mapLookup_mem hv
    have hdn : d = v.DomainName := hwk (d, v) hmem
    refine ⟨v, (mem_toAddList hwk).mpr ⟨?_, ?_⟩, hdn.symm⟩
    · rw [← hdn]; exact hmem
    · rw [← hdn]; exact hnone

theorem name_mem_toRemoveList {metadataRecs providerRecs : RecordSet} {d : String}
    (hwk : wellKeyed providerRecs) :
    d ∈ (toRemoveList metadataRecs providerRecs).map DnsRecord.DomainName ↔
      (mapLookup providerRecs d).isSome ∧ mapLookup metadataRecs d = none := by
  rw [List.mem_map]
  constructor
  · rintro ⟨r, hr, rfl⟩
    rcases (mem_toRemoveList hwk).mp hr with ⟨hmem, hnone⟩
    exact ⟨mapLookup_isSome_iff.mpr ⟨r, hmem⟩, hnone⟩
  · rintro ⟨hsome, hnone⟩
    rcases Option.isSome_iff_exists.mp hsome with ⟨v, hv⟩
    have hmem := mapLookup_mem hv
    have hdn : d = v.DomainName := hwk (d, v) hmem
    refine ⟨v, (mem_toRemoveList hwk).mpr ⟨?_, ?_⟩, hdn.symm⟩
    · rw [← hdn]; exact hmem
    · rw [← hdn]; exact hnone

theorem name_mem_toUpdateList {metadataRecs providerRecs : RecordSet} {d : String}
    (hwk : wellKeyed metadataRecs) (hnd : keysNodup metadataRecs) :
    d ∈ (toUpdateList metadataRecs providerRecs).map DnsRecord.DomainName ↔
      ∃ mr cr, mapLookup metadataRecs d = some mr ∧ mapLookup providerRecs d = some cr ∧
        valuesDiffer mr.Records cr.Records = true := by
  rw [List.mem_map]
  constructor
  · rintro ⟨r, hr, rfl⟩
    rcases (mem_toUpdateList hwk).mp hr with ⟨hmem, cr, hcr, hdiff⟩
    exact ⟨r, cr, mem_mapLookup_of_nodup hnd hmem, hcr, hdiff⟩
  · rintro ⟨mr, cr, hmr, hcr, hdiff⟩
    have hmem := mapLookup_mem hmr
    have hdn : d = mr.DomainName := hwk (d, mr) hmem
    refine ⟨mr, (mem_toUpdateList hwk).mpr ⟨?_, cr, ?_, hdiff⟩, hdn.symm⟩
    · rw [← hdn]; exact hmem
    · rw [← hdn]; exact hcr

/-- A domain name present in both sets whose two value lists agree as sets:
the "unchanged" class of the diff. -/
def unchangedName (metadataRecs providerRecs : RecordSet) (d : String) : Prop :=
  ∃ mr cr, mapLookup metadataRecs d = some mr ∧ mapLookup providerRecs d = some cr ∧
    valuesDiffer mr.Records cr.Records = false

/-- C6: the domain-name sets of `toAdd`, `toRemove` and `toUpdate` are
pairwise disjoint, and every domain name occurring in desired or current
falls into exactly one of the four classes toAdd, toRemove, toUpdate,
unchanged. -/
theorem diff_partition (desired current : RecordSet)
    (hwkd : wellKeyed desired) (hwkc : wellKeyed current)
    (hndd : keysNodup desired) :
    (∀ d, ¬ (d ∈ (toAddList desired current).map DnsRecord.DomainName ∧
             d ∈ (toRemoveList desired current).map DnsRecord.DomainName)) ∧
    (∀ d, ¬ (d ∈ (toAddList desired current).map DnsRecord.DomainName ∧
             d ∈ (toUpdateList desired current).map DnsRecord.DomainName)) ∧
    (∀ d, ¬ (d ∈ (toRemoveList desired current).map DnsRecord.DomainName ∧
             d ∈ (toUpdateList desired current).map DnsRecord.DomainName)) ∧
    (∀ d, d ∈ desired.map Prod.fst ∨ d ∈ current.map Prod.fst →
      (d ∈ (toAddList desired current).map DnsRecord.DomainName ∧
        d ∉ (toRemoveList desired current).map DnsRecord.DomainName ∧
        d ∉ (toUpdateList desired current).map DnsRecord.DomainName ∧
        ¬ unchangedName desired current d) ∨
      (d ∉ (toAddList desired current).map DnsRecord.DomainName ∧
        d ∈ (toRemoveList desired current).map DnsRecord.DomainName ∧
        d ∉ (toUpdateList desired current).map DnsRecord.DomainName ∧
        ¬ unchangedName desired current d) ∨
      (d ∉ (toAddList desired current).map DnsRecord.DomainName ∧
        d ∉ (toRemoveList desired current).map DnsRecord.DomainName ∧
        d ∈ (toUpdateList desired current).map DnsRecord.DomainName ∧
        ¬ unchangedName desired current d) ∨
      (d ∉ (toAddList desired current).map DnsRecord.DomainName ∧
        d ∉ (toRemoveList desired current).map DnsRecord.DomainName ∧
        d ∉ (toUpdateList desired current).map DnsRecord.DomainName ∧
        unchangedName desired current d)) := by
  have hA : ∀ d, d ∈ (toAddList desired current).map DnsRecord.DomainName ↔
      (mapLookup desired d).isSome ∧ mapLookup current d = none :=
    fun d => name_mem_toAddList hwkd
  have hR : ∀ d, d ∈ (toRemoveList desired current).map DnsRecord.DomainName ↔
      (mapLookup current d).isSome ∧ mapLookup desired d = none :=
    fun d => name_mem_toRemoveList hwkc
  have hU : ∀ d, d ∈ (toUpdateList desired current).map DnsRecord.DomainName ↔
      ∃ mr cr, mapLookup desired d = some mr ∧ mapLookup current d = some cr ∧
        valuesDiffer mr.Records cr.Records = true :=
    fun d => name_mem_toUpdateList hwkd hndd
  refine ⟨?_, ?_, ?_, ?_⟩
  · rintro d ⟨ha, hr⟩
    rcases (hA d).mp ha with ⟨h1, h2⟩
    rcases (hR d).mp hr with ⟨h3, _⟩
    rw [h2] at h3
    exact Bool.noConfusion h3
  · rintro d ⟨ha, hu⟩
    rcases (hA d).mp ha with ⟨_, h2⟩
    rcases (hU d).mp hu with ⟨mr, cr, _, h4, _⟩
    rw [h2] at h4
    exact Option.noConfusion h4
  · rintro d ⟨hr, hu⟩
    rcases (hR d).mp hr with ⟨_, h2⟩
    rcases (hU d).mp hu with ⟨mr, cr, h3, _, _⟩
    rw [h2] at h3
    exact Option.noConfusion h3
  · intro d hd
    have hdsome : (mapLookup desired d).isSome ∨ (mapLookup current d).isSome := by
      rcases hd with hd | hd
      · rcases List.mem_map.mp hd with ⟨kv, hkv, rfl⟩
        exact Or.inl (mapLookup_isSome_iff.mpr ⟨kv.2, by simpa using hkv⟩)
      · rcases List.mem_map.mp hd with ⟨kv, hkv, rfl⟩
        exact Or.inr (mapLookup_isSome_iff.mpr ⟨kv.2, by simpa using hkv⟩)
    rcases hmd : mapLookup desired d with _ | mr
    · rcases hcd : mapLookup current d with _ | cr
      · rw [hmd, hcd] at hdsome
        simp at hdsome
      · -- absent from desired, present in current: toRemove
        refine Or.inr (Or.inl ⟨?_, ?_, ?_, ?_⟩)
        · rw [hA d, hmd]; simp
        · rw [hR d, hcd, hmd]; simp
        · rw [hU d]
          rintro ⟨mr, cr', h1, _, _⟩
          rw [hmd] at h1
          exact Option.noConfusion h1
        · rintro ⟨mr, cr', h1, _, _⟩
          rw [hmd] at h1
          exact Option.noConfusion h1
    · rcases hcd : mapLookup current d with _ | cr
      · -- present in desired, absent from current: toAdd
        refine Or.inl ⟨?_, ?_, ?_, ?_⟩
        · rw [hA d, hmd, hcd]; simp
        · rw [hR d, hcd]; simp
        · rw [hU d]
          rintro ⟨mr', cr', _, h2, _⟩
          rw [hcd] at h2
          exact Option.noConfusion h2
        · rintro ⟨mr', cr', _, h2, _⟩
          rw [hcd] at h2
          exact Option.noConfusion h2
      · -- present in both: toUpdate or unchanged, by the value comparison
        rcases hdiff : valuesDiffer mr.Records cr.Records with _ | _
        · refine Or.inr (Or.inr (Or.inr ⟨?_, ?_, ?_, mr, cr, hmd, hcd, hdiff⟩))
          · rw [hA d, hcd]
            rintro ⟨_, h2⟩
            exact Option.noConfusion h2
          · rw [hR d, hmd]
            rintro ⟨_, h2⟩
            exact Option.noConfusion h2
          · rw [hU d]
            rintro ⟨mr', cr', h1, h2, h3⟩
            rw [hmd] at h1
            rw [hcd] at h2
            cases h1
            cases h2
            rw [hdiff] at h3
            exact Bool.noConfusion h3
        · refine Or.inr (Or.inr (Or.inl ⟨?_, ?_, ?_, ?_⟩))
          · rw [hA d, hcd]
            rintro ⟨_, h2⟩
            exact Option.noConfusion h2
          · rw [hR d, hmd]
            rintro ⟨_, h2⟩
            exact Option.noConfusion h2
          · rw [hU d]
            exact ⟨mr, cr, hmd, hcd, hdiff⟩
          · rintro ⟨mr', cr', h1, h2, h3⟩
            rw [hmd] at h1
            rw [hcd] at h2
            cases h1
            cases h2
            rw [hdiff] at h3
            exact Bool.noConfusion h3

/-- Witness for C6 at the spec's concrete scenario. -/
theorem diff_partition_witness :
    wellKeyed desiredScenario ∧ wellKeyed currentScenario ∧
      keysNodup desiredScenario ∧
      ¬ ("old.stack.env.example.com" ∈
          (toAddList desiredScenario currentScenario).map DnsRecord.DomainName ∧
        "old.stack.env.example.com" ∈
          (toRemoveList desiredScenario currentScenario).map DnsRecord.DomainName) :=
  ⟨by decide, by decide, by decide,
    (diff_partition desiredScenario currentScenario
      (by decide) (by decide) (by decide)).1 "old.stack.env.example.com"⟩

/-! ## Theorems about the provider-state reader -/

theorem mapInsert_of_fresh {rs : RecordSet} {k : String} (v : DnsRecord)
    (h : k ∉ rs.map Prod.fst) : mapInsert rs k v = rs ++ [(k, v)] := by
  induction rs with
  | nil => rfl
  | cons hd rest ih =>
    rw [List.map_cons] at h
    have h1 : ¬ k = hd.1 ∧ k ∉ rest.map Prod.fst := by
      constructor
      · intro he
        exact h (he ▸ List.mem_cons_self _ _)
      · intro hm
        exact h (List.mem_cons_of_mem _ hm)
    rw [show mapInsert (hd :: rest) k v = hd :: mapInsert rest k v by
      rw [mapInsert]; rw [if_neg (fun he => h1.1 he.symm)]]
    rw [ih h1.2]
    rfl

theorem providerFold_eq (sfx : String) (l : List DnsRecord) (acc : RecordSet)
    (hfresh : ∀ r ∈ l, r.DomainName ∉ acc.map Prod.fst)
    (hnd : (l.map DnsRecord.DomainName).Nodup) :
    l.foldl
      (fun ourRecords value =>
        if goHasSuffix value.DomainName sfx then
          mapInsert ourRecords value.DomainName value
        else
          ourRecords) acc
      = acc ++ (l.filter fun r => goHasSuffix r.DomainName sfx).map fun r => (r.DomainName, r) := by
  induction l generalizing acc with
  | nil => simp
  | cons v rest ih =>
    rw [List.map_cons] at hnd
    have hnd' := List.nodup_cons.mp hnd
    rw [List.foldl_cons]
    rcases hsfx : goHasSuffix v.DomainName sfx with _ | _
    · rw [if_neg (by simp [hsfx])]
      rw [List.filter_cons_of_neg (by simp [hsfx])]
      exact ih acc (fun r hr => hfresh r (List.mem_cons_of_mem _ hr)) hnd'.2
    · rw [if_pos (by simp [hsfx])]
      rw [mapInsert_of_fresh v (hfresh v (List.mem_cons_self _ _))]
      rw [List.filter_cons_of_pos (by simp [hsfx])]
      rw [ih (acc ++ [(v.DomainName, v)]) ?_ hnd'.2]
      · rw [List.map_cons, List.append_assoc]
        rfl
      · intro r hr hmem
        rw [List.map_append, List.mem_append] at hmem
        rcases hmem with hmem | hmem
        · exact hfresh r (List.mem_cons_of_mem _ hr) hmem
        · have he : r.DomainName = v.DomainName := by simpa using hmem
          exact hnd'.1 (he ▸ List.mem_map.mpr ⟨r, hr, rfl⟩)

/-- The filter test exactly as claim C4 words it (for comparison with the
source's `getProviderDnsRecords`): the domain name ends, case-insensitively,
with `"." ++ environmentName ++ "." ++ rootDomain`, a leading dot separating
the suffix from the host part. -/
def specSuffixMatch (domainName EnvironmentName RootDomainName : String) : Bool :=
  goHasSuffix (goToLower domainName)
    (goToLower ("." ++ EnvironmentName ++ "." ++ RootDomainName))

def recNoDotBoundary : DnsRecord := ⟨"xenv.root", ["10.0.0.3"], "A", 300⟩

def recUpperCase : DnsRecord := ⟨"A.ENV.ROOT", ["10.0.0.4"], "A", 300⟩

def providerC4 : Provider :=
  ⟨.ok [recNoDotBoundary, recUpperCase], fun _ => .ok (), fun _ => .ok (), fun _ => .ok ()⟩

/-- C4 counterexample: with environment name `env` and root domain `root`,
the code keeps the provider record named `xenv.root` — whose name does NOT
end with the dot-separated suffix `.env.root` the claim requires — and drops
the record named `A.ENV.ROOT`, whose name DOES end with that suffix
case-insensitively.  The kept set is therefore not the set the claim
describes, in both directions. -/
theorem provider_filter_counterexample :
    getProviderDnsRecords providerC4 "env" "root" = .ok [("xenv.root", recNoDotBoundary)] ∧
    specSuffixMatch recNoDotBoundary.DomainName "env" "root" = false ∧
    specSuffixMatch recUpperCase.DomainName "env" "root" = true :=
  ⟨by decide, by decide, by decide⟩

/-- C4 (amended): `getProviderDnsRecords` keeps exactly those provider
records whose domain name ends — case-sensitively, with no leading-dot
boundary added — with the lower-cased string `environmentName ++ "." ++
rootDomain`, and keys the result by domain name. -/
theorem provider_filter_amended (p : Provider) (allRecords : List DnsRecord)
    (EnvironmentName RootDomainName : String)
    (hp : p.GetRecords = .ok allRecords)
    (hnd : (allRecords.map DnsRecord.DomainName).Nodup) :
    ∃ ourRecords, getProviderDnsRecords p EnvironmentName RootDomainName = .ok ourRecords ∧
      ∀ kv, kv ∈ ourRecords ↔
        kv.2 ∈ allRecords ∧ kv.1 = kv.2.DomainName ∧
          goHasSuffix kv.2.DomainName
            (goToLower (goJoin [EnvironmentName, RootDomainName] ".")) = true := by
  refine ⟨_, by rw [getProviderDnsRecords, hp], ?_⟩
  rw [providerFold_eq _ allRecords [] (by simp) hnd, List.nil_append]
  intro kv
  rw [List.mem_map]
  constructor
  · rintro ⟨r, hr, rfl⟩
    rcases List.mem_filter.mp hr with ⟨hmem, hsfx⟩
    exact ⟨hmem, rfl, hsfx⟩
  · rintro ⟨hmem, hkey, hsfx⟩
    refine ⟨kv.2, List.mem_filter.mpr ⟨hmem, hsfx⟩, ?_⟩
    exact Prod.ext hkey.symm rfl

/-- Witness for the amended C4 at a concrete provider. -/
theorem provider_filter_amended_witness :
    providerC4.GetRecords = .ok [recNoDotBoundary, recUpperCase] ∧
    ([recNoDotBoundary, recUpperCase].map DnsRecord.DomainName).Nodup ∧
    ∃ ourRecords, getProviderDnsRecords providerC4 "env" "root" = .ok ourRecords ∧
      ∀ kv, kv ∈ ourRecords ↔
        kv.2 ∈ [recNoDotBoundary, recUpperCase] ∧ kv.1 = kv.2.DomainName ∧
          goHasSuffix kv.2.DomainName (goToLower (goJoin ["env", "root"] ".")) = true :=
  ⟨rfl, by decide,
    provider_filter_amended providerC4 [recNoDotBoundary, recUpperCase] "env" "root"
      rfl (by decide)⟩

/-! ## Theorems about the desired-state builder and the apply/orchestration
defects -/

def containerWebA : Container := ⟨"c1", "web", "stack", "h1"⟩

def containerWebB : Container := ⟨"c2", "web", "stack", "h2"⟩

def handlerTwoInstances : Handler :=
  ⟨.ok [containerWebA, containerWebB],
    fun u =>
      if u = "h1" then .ok ⟨"10.0.0.1"⟩
      else if u = "h2" then .ok ⟨"10.0.0.2"⟩
      else .error "no such host"⟩

/-- C1 (code bug): two instances (`web`/`stack` on hosts `10.0.0.1` and
`10.0.0.2`) resolve to the same domain name, but the record built for it
carries only the second IP, `["10.0.0.2"]`, not `["10.0.0.1", "10.0.0.2"]`:
the existence test of `addToDnsEntries` is inverted, so on a hit the new
values replace the accumulated ones.  The second conjunct isolates the merge
step itself doing the replacement. -/
theorem merge_replaces_instead_of_appending :
    getMetadataDnsRecords handlerTwoInstances "env" "root"
      = .ok [("web.stack.env.root", ⟨"web.stack.env.root", ["10.0.0.2"], "A", 300⟩)] ∧
    addToDnsEntries ⟨"web.stack.env.root", ["10.0.0.2"], "A", 300⟩
        [("web.stack.env.root", ⟨"web.stack.env.root", ["10.0.0.1"], "A", 300⟩)]
      = [("web.stack.env.root", ⟨"web.stack.env.root", ["10.0.0.2"], "A", 300⟩)] :=
  ⟨by decide, by decide⟩

def recBoom : DnsRecord := ⟨"a.env.root", ["10.0.0.5"], "A", 300⟩

def providerBoom : Provider :=
  ⟨.ok [], fun _ => .error "boom", fun _ => .ok (), fun _ => .ok ()⟩

/-- C2 (code bug): `updateRecords` returns `nil` for every input — the
consumer goroutine's `return fmt.Errorf(...)` value is discarded because
nothing reads the result of `go func() error` — so when a provider call
fails the caller still receives no error, let alone a combined one.  The
concrete conjuncts exhibit a failing `AddRecord` whose wrapped error is
computed by the consumer and then dropped. -/
theorem updateRecords_swallows_errors :
    (∀ p toChange op, (updateRecords p toChange op).1 = Except.ok ()) ∧
    providerBoom.AddRecord recBoom = .error "boom" ∧
    (consumerLoop providerBoom Op.Add [recBoom]).1
      = .error ("Failed to add DNS record " ++ formatRecord recBoom ++ ": " ++ "boom") ∧
    updateRecords providerBoom [recBoom] Op.Add = (Except.ok (), [Effect.add recBoom]) :=
  ⟨fun _ _ _ => rfl, rfl, rfl, rfl⟩

def containerWebOnly : Container := ⟨"c1", "web", "stack", "h1"⟩

def handlerWebOnly : Handler :=
  ⟨.ok [containerWebOnly],
    fun u => if u = "h1" then .ok ⟨"10.0.0.1"⟩ else .error "no such host"⟩

def recOldProvider : DnsRecord := ⟨"old.stack.env.root", ["10.0.0.9"], "A", 300⟩

def providerAddFails : Provider :=
  ⟨.ok [recOldProvider], fun _ => .error "boom", fun _ => .ok (), fun _ => .ok ()⟩

/-- C5 (code bug): in a pass whose add phase has a single record and whose
provider `AddRecord` call fails, `UpdateDnsRecords` neither wraps nor
returns the phase's error: the pass continues into the remove phase (its
`remove` mutation appears in the trace after the failed `add`) and returns
`nil`. -/
theorem orchestrator_continues_after_phase_failure :
    providerAddFails.AddRecord ⟨"web.stack.env.root", ["10.0.0.1"], "A", 300⟩
      = .error "boom" ∧
    UpdateDnsRecords providerAddFails handlerWebOnly "env" "root"
      = (Except.ok (),
          [Effect.add ⟨"web.stack.env.root", ["10.0.0.1"], "A", 300⟩,
            Effect.remove recOldProvider]) :=
  ⟨rfl, by decide⟩

/-! ## Error behaviour of the desired-state builder (C8) -/

/-- C8: `getContainersDnsRecords` never fails because of an individual
instance.  A failing `GetContainers` (the discovery source itself) is
propagated; on a successful read the build always succeeds, producing the
fold of `containerStep`; and a container with an empty service name, or one
whose host lookup fails, leaves the entries untouched — it contributes no
record and causes no error. -/
theorem builder_skips_bad_instances (m : Handler) (es : RecordSet)
    (sn stn env root : String) :
    (∀ err, m.GetContainers = .error err →
      getContainersDnsRecords m es sn stn env root = .error err) ∧
    (∀ cs, m.GetContainers = .ok cs →
      getContainersDnsRecords m es sn stn env root
        = .ok (cs.foldl (containerStep m sn stn env root) es)) ∧
    (∀ es' c, c.ServiceName = "" → containerStep m sn stn env root es' c = es') ∧
    (∀ es' c err, m.GetHost c.HostUUID = .error err →
      containerStep m sn stn env root es' c = es') := by
  refine ⟨?_, ?_, ?_, ?_⟩
  · intro err h
    rw [getContainersDnsRecords, h]
  · intro cs h
    rw [getContainersDnsRecords, h]
  · intro es' c h
    rw [containerStep, if_pos (by rw [h]; rfl)]
  · intro es' c err h
    rw [containerStep]
    by_cases h1 : c.ServiceName.length = 0
    · rw [if_pos h1]
    · rw [if_neg h1]
      by_cases h2 : sn.length ≠ 0 ∧ (sn ≠ c.ServiceName ∨ stn ≠ c.StackName)
      · rw [if_pos h2]
      · rw [if_neg h2]
        by_cases h3 : c.HostUUID.length = 0
        · rw [if_pos h3]
        · rw [if_neg h3, h]

def handlerDown : Handler := ⟨.error "metadata down", fun _ => .error "no such host"⟩

/-- Witness for C8: a failing discovery read propagates; an instance with an
empty service name and an instance whose host lookup fails both contribute
nothing. -/
theorem builder_skips_bad_instances_witness :
    getContainersDnsRecords handlerDown [] "" "" "env" "root" = .error "metadata down" ∧
    containerStep handlerDown "" "" "env" "root" [] ⟨"c", "", "stack", "h"⟩ = [] ∧
    containerStep handlerDown "" "" "env" "root" [] ⟨"c", "svc", "stack", "h"⟩ = [] :=
  ⟨(builder_skips_bad_instances handlerDown [] "" "" "env" "root").1 "metadata down" rfl,
    (builder_skips_bad_instances handlerDown [] "" "" "env" "root").2.2.1
      [] ⟨"c", "", "stack", "h"⟩ rfl,
    (builder_skips_bad_instances handlerDown [] "" "" "env" "root").2.2.2
      [] ⟨"c", "svc", "stack", "h"⟩ "no such host" rfl⟩

/-! ## Invariants of the built record sets (C9, C10) -/

theorem wellKeyed_addToDnsEntries (e : DnsRecord) {es : RecordSet}
    (h : wellKeyed es) : wellKeyed (addToDnsEntries e es) := by
  simp only [addToDnsEntries]
  exact wellKeyed_mapInsert rfl h

theorem wellKeyed_containerStep (m : Handler) (sn stn env root : String)
    {es : RecordSet} (c : Container) (h : wellKeyed es) :
    wellKeyed (containerStep m sn stn env root es c) := by
  rw [containerStep]
  by_cases h1 : c.ServiceName.length = 0
  · rw [if_pos h1]; exact h
  · rw [if_neg h1]
    by_cases h2 : sn.length ≠ 0 ∧ (sn ≠ c.ServiceName ∨ stn ≠ c.StackName)
    · rw [if_pos h2]; exact h
    · rw [if_neg h2]
      by_cases h3 : c.HostUUID.length = 0
      · rw [if_pos h3]; exact h
      · rw [if_neg h3]
        rcases m.GetHost c.HostUUID with err | host
        · exact h
        · exact wellKeyed_addToDnsEntries _ h

theorem wellKeyed_containerFold (m : Handler) (sn stn env root : String)
    (cs : List Container) {es : RecordSet} (h : wellKeyed es) :
    wellKeyed (cs.foldl (containerStep m sn stn env root) es) := by
  induction cs generalizing es with
  | nil => exact h
  | cons c rest ih =>
    rw [List.foldl_cons]
    exact ih (wellKeyed_containerStep m sn stn env root c h)

theorem wellKeyed_providerFold (sfx : String) (all : List DnsRecord)
    {acc : RecordSet} (h : wellKeyed acc) :
    wellKeyed (all.foldl
      (fun ourRecords value =>
        if goHasSuffix value.DomainName sfx then
          mapInsert ourRecords value.DomainName value
        else
          ourRecords) acc) := by
  induction all generalizing acc with
  | nil => exact h
  | cons v rest ih =>
    rw [List.foldl_cons]
    by_cases hv : goHasSuffix v.DomainName sfx = true
    · rw [if_pos hv]
      exact ih (wellKeyed_mapInsert rfl h)
    · rw [if_neg hv]
      exact ih h

/-- C9: in every `RecordSet` the system builds — the desired set built by
`getMetadataDnsRecords`/`addToDnsEntries` and the current set built by
`getProviderDnsRecords` — every map key equals the `DomainName` field of the
record stored under it. -/
theorem recordsets_well_keyed :
    (∀ m env root es, getMetadataDnsRecords m env root = .ok es → wellKeyed es) ∧
    (∀ e es, wellKeyed es → wellKeyed (addToDnsEntries e es)) ∧
    (∀ p env root es, getProviderDnsRecords p env root = .ok es → wellKeyed es) := by
  refine ⟨?_, fun e es h => wellKeyed_addToDnsEntries e h, ?_⟩
  · intro m env root es h
    rw [getMetadataDnsRecords, getContainersDnsRecords] at h
    rcases hc : m.GetContainers with err | cs
    · rw [hc] at h
      exact Except.noConfusion h
    · rw [hc] at h
      injection h with he
      subst he
      exact wellKeyed_containerFold m "" "" env root cs (fun kv hkv => absurd hkv (List.not_mem_nil kv))
  · intro p env root es h
    rw [getProviderDnsRecords] at h
    rcases hg : p.GetRecords with err | all
    · rw [hg] at h
      exact Except.noConfusion h
    · rw [hg] at h
      injection h with he
      subst he
      exact wellKeyed_providerFold _ all (fun kv hkv => absurd hkv (List.not_mem_nil kv))

/-- Witness for C9 at concrete builds of both record sets. -/
theorem recordsets_well_keyed_witness :
    getMetadataDnsRecords handlerTwoInstances "env" "root"
      = .ok [("web.stack.env.root", ⟨"web.stack.env.root", ["10.0.0.2"], "A", 300⟩)] ∧
    wellKeyed [("web.stack.env.root", ⟨"web.stack.env.root", ["10.0.0.2"], "A", 300⟩)] ∧
    getProviderDnsRecords providerC4 "env" "root" = .ok [("xenv.root", recNoDotBoundary)] ∧
    wellKeyed [("xenv.root", recNoDotBoundary)] :=
  ⟨by decide,
    recordsets_well_keyed.1 handlerTwoInstances "env" "root" _ (by decide),
    by decide,
    recordsets_well_keyed.2.2 providerC4 "env" "root" _ (by decide)⟩

theorem fixedFields_addToDnsEntries (e : DnsRecord) (es : RecordSet)
    (kv : String × DnsRecord) (h : kv ∈ addToDnsEntries e es) :
    kv ∈ es ∨ (kv.2.RecordType = "A" ∧ kv.2.TTL = 300) := by
  simp only [addToDnsEntries] at h
  rcases mem_mapInsert h with h1 | h1
  · right
    rw [h1]
    exact ⟨rfl, rfl⟩
  · exact Or.inl h1

theorem fixedFields_containerStep (m : Handler) (sn stn env root : String)
    (es : RecordSet) (c : Container)
    (h : ∀ kv ∈ es, kv.2.RecordType = "A" ∧ kv.2.TTL = 300) :
    ∀ kv ∈ containerStep m sn stn env root es c,
      kv.2.RecordType = "A" ∧ kv.2.TTL = 300 := by
  rw [containerStep]
  by_cases h1 : c.ServiceName.length = 0
  · rw [if_pos h1]; exact h
  · rw [if_neg h1]
    by_cases h2 : sn.length ≠ 0 ∧ (sn ≠ c.ServiceName ∨ stn ≠ c.StackName)
    · rw [if_pos h2]; exact h
    · rw [if_neg h2]
      by_cases h3 : c.HostUUID.length = 0
      · rw [if_pos h3]; exact h
      · rw [if_neg h3]
        rcases m.GetHost c.HostUUID with err | host
        · exact h
        · intro kv hkv
          rcases fixedFields_addToDnsEntries _ _ kv hkv with h4 | h4
          · exact h kv h4
          · exact h4

theorem fixedFields_containerFold (m : Handler) (sn stn env root : String)
    (cs : List Container) (es : RecordSet)
    (h : ∀ kv ∈ es, kv.2.RecordType = "A" ∧ kv.2.TTL = 300) :
    ∀ kv ∈ cs.foldl (containerStep m sn stn env root) es,
      kv.2.RecordType = "A" ∧ kv.2.TTL = 300 := by
  induction cs generalizing es with
  | nil => exact h
  | cons c rest ih =>
    rw [List.foldl_cons]
    exact ih _ (fixedFields_containerStep m sn stn env root es c h)

/-- C10: every record in the desired `RecordSet` built from discovered
instances has record type `"A"` and TTL exactly `300`, whatever the input
instances; and the merge step `addToDnsEntries` always writes the record
stored under the entry's domain name with these same constants. -/
theorem built_records_have_fixed_type_and_ttl :
    (∀ m env root es, getMetadataDnsRecords m env root = .ok es →
      ∀ kv ∈ es, kv.2.RecordType = "A" ∧ kv.2.TTL = 300) ∧
    (∀ e es, ∃ w, mapLookup (addToDnsEntries e es) e.DomainName = some w ∧
      w.RecordType = "A" ∧ w.TTL = 300) := by
  constructor
  · intro m env root es h
    rw [getMetadataDnsRecords, getContainersDnsRecords] at h
    rcases hc : m.GetContainers with err | cs
    · rw [hc] at h
      exact Except.noConfusion h
    · rw [hc] at h
      injection h with he
      subst he
      exact fixedFields_containerFold m "" "" env root cs []
        (fun kv hkv => absurd hkv (List.not_mem_nil kv))
  · intro e es
    simp only [addToDnsEntries]
    rw [mapLookup_mapInsert]
    rw [if_pos rfl]
    exact ⟨_, rfl, rfl, rfl⟩

/-- Witness for C10 at a concrete build. -/
theorem built_records_have_fixed_type_and_ttl_witness :
    getMetadataDnsRecords handlerTwoInstances "env" "root"
      = .ok [("web.stack.env.root", ⟨"web.stack.env.root", ["10.0.0.2"], "A", 300⟩)] ∧
    (∀ kv ∈ [("web.stack.env.root",
        (⟨"web.stack.env.root", ["10.0.0.2"], "A", 300⟩ : DnsRecord))],
      kv.2.RecordType = "A" ∧ kv.2.TTL = 300) :=
  ⟨by decide,
    built_records_have_fixed_type_and_ttl.1 handlerTwoInstances "env" "root" _ (by decide)⟩
